import Mathlib

/-!
# Verification of the Strapi source plugin (`src/StrapiSourcePlugin.ts`)

Shallow embedding of the content mapper of the plugin, media cache, entity
fetcher and type-definition generator, together with proofs of the
specification claims about them.

Conventions of the embedding:
* JavaScript values flowing through the mapper are modelled by `JValue`;
  the JS distinction between `undefined` and `null` is modelled by
  `Option JValue` (`none` = `undefined`, `some JValue.null` = `null`).
* `typeof` is modelled by `jsTypeof` (note `typeof null = "object"` and
  `typeof [] = "object"`, exactly as in JavaScript).
* Asynchronous functions that can `throw StrapiSourceError` are modelled
  with `Except StrapiSourceError`; recursive mapping functions take a
  fuel argument (the TS recursion has no fuel; theorems about successful
  runs quantify over all fuel values, and termination claims are stated
  as explicit fuel bounds).
* External collaborators (the md5 hash, the Gatsby `createNodeId`, the
  cache, `getNode`, `createRemoteFileNode`) are parameters of the
  embedding, collected in environment structures.
-/

namespace StrapiSource

/-- Error thrown by the plugin (`class StrapiSourceError extends Error`). -/
structure StrapiSourceError where
  message : String
  deriving DecidableEq, Repr

/-- A JSON-ish JavaScript runtime value. -/
inductive JValue where
  | null : JValue
  | bool : Bool → JValue
  | num : Int → JValue
  | str : String → JValue
  | arr : List JValue → JValue
  | obj : List (String × JValue) → JValue

/-- JavaScript `typeof` on a possibly-`undefined` value (`none` is
`undefined`).  As in JS, `typeof null`, `typeof []` and `typeof {}` are
all `"object"`. -/
def jsTypeof : Option JValue → String
  | none => "undefined"
  | some JValue.null => "object"
  | some (JValue.bool _) => "boolean"
  | some (JValue.num _) => "number"
  | some (JValue.str _) => "string"
  | some (JValue.arr _) => "object"
  | some (JValue.obj _) => "object"

/-- First-match association-list lookup (JS objects and `Map`s hold at
most one entry per key). -/
def alookup {β : Type} : List (String × β) → String → Option β
  | [], _ => none
  | (k, v) :: rest, key => if k = key then some v else alookup rest key

/-- JavaScript property read `data[key]`: object field lookup, numeric
index into an array, `undefined` otherwise. -/
def jsGet (v : JValue) (key : String) : Option JValue :=
  match v with
  | JValue.obj fields => alookup fields key
  | JValue.arr items => key.toNat?.bind fun i => items.get? i
  | _ => none

/-- One attribute of a Strapi schema (`strapi-types.ts`).  The runtime
dispatch is on the `type` string, so the embedding keeps the attribute
as the flat record it is at runtime; fields belonging to other variants
are simply unused. -/
structure Attribute where
  type : String
  required : Bool
  repeatable : Bool
  component : String
  model : String
  components : List String
  deriving DecidableEq, Repr

/-- Embedding of `Strapi.Schema` (the fields the plugin reads). -/
structure Schema where
  kind : String       -- "collectionType" | "singleType"
  modelType : String  -- "contentType" | "component"
  attributes : List (String × Attribute)
  deriving DecidableEq, Repr

/-- Embedding of `Strapi.EntityType` (the fields the plugin reads). -/
structure EntityType where
  uid : String
  apiID : String
  schema : Schema
  deriving DecidableEq, Repr

/-- The `capitalize` helper from the source: `s[0].toUpperCase() + s.slice(1)`. -/
def capitalize (s : String) : String :=
  (s.take 1).toUpper ++ s.drop 1

/-- Embedding of `getTypeName`: the node type name produced by `createNodeFactory`
of `gatsby-node-helpers` with prefix `"Strapi"`; modelled (as the
comment in the source itself records) as `TYPE_PREFIX + capitalize(apiID)`. -/
def getTypeName (t : EntityType) : String :=
  "Strapi" ++ capitalize t.apiID

/-- A mapped value produced by the content mapper. -/
inductive MValue where
  | undef : MValue
  | raw : JValue → MValue
  | nodeRef : String → MValue
  | node : List (String × MValue) → MValue
  | list : List MValue → MValue

/-- Scalar pass-through: `[key, data]` keeps the raw value (`undefined`
when the record has no such field). -/
def rawField : Option JValue → MValue
  | none => MValue.undef
  | some v => MValue.raw v

/-! ## Rich text mapping (`mapRichtext`) -/

/-- The markdown side node built by `mapRichtext` (the `NodeInput`
literal of the source, restricted to the fields it sets). -/
structure MarkdownNode where
  id : String
  text : String
  internalType : String
  mediaType : String
  content : String
  contentDigest : String
  deriving DecidableEq, Repr

/-- External collaborators of `mapRichtext`: the md5 `hashString` and
the Gatsby `createNodeId`. -/
structure RichtextEnv where
  hashString : String → String
  createNodeId : String → String

/-- Embedding of `mapRichtext`: a non-string value maps to an absent reference; a
string synthesizes a markdown side node whose id is content-addressed
by `createNodeId(hashString(text))`, and the owning record stores
`[key + "___NODE", node.id]`.  Returns the emitted entry together with
the side node created (if any). -/
def mapRichtext (env : RichtextEnv) (key : String) (data : Option JValue) :
    (String × MValue) × Option MarkdownNode :=
  match data with
  | some (JValue.str s) =>
    let contentDigest := env.hashString s
    let nodeId := env.createNodeId contentDigest
    let node : MarkdownNode :=
      ⟨nodeId, s, "StrapiMarkdownString", "text/markdown", s, contentDigest⟩
    ((key ++ "___NODE", MValue.nodeRef nodeId), some node)
  | _ => ((key ++ "___NODE", MValue.undef), none)

/-! ## Media mapping (`mapMedia`) -/

/-- The fields of a `Strapi.Media` descriptor the mapper reads. -/
structure MediaDesc where
  id : Int
  url : String
  updated_at : String
  deriving DecidableEq, Repr

/-- A cache entry written by `mapMedia` (`{ fileNodeID, updated_at }`). -/
structure MediaCacheEntry where
  fileNodeID : String
  updated_at : String
  deriving DecidableEq, Repr

/-- Outcome of one `createRemoteFileNode` call: a file node, a falsy
result, or a thrown error. -/
inductive BlobResult where
  | ok : String → BlobResult
  | nil : BlobResult
  | err : BlobResult
  deriving DecidableEq, Repr

/-- The value stored in the owning record for a media field. -/
inductive MediaValue where
  | undef : MediaValue
  | ref : String → MediaValue
  | fallback : MediaDesc → MediaValue
  deriving DecidableEq, Repr

/-- Environment of one `mapMedia` call: cache contents, liveness of
previously created nodes, and the Blob Store response should it be
invoked. -/
structure MediaEnv where
  cache : List (String × MediaCacheEntry)
  getNode : String → Bool
  blob : BlobResult
  apiURL : String

/-- Result and observable effects of one `mapMedia` call. -/
structure MediaOut where
  key : String
  value : MediaValue
  blobCalls : Nat
  touched : List String
  cacheWrites : List (String × MediaCacheEntry)
  deriving Repr

/-- Embedding of `mapMedia`: absent descriptor or missing URL give an absent
reference; a cache hit with matching `updated_at` and a live node
reuses (and touches) the cached file node without calling the Blob
Store; otherwise one `createRemoteFileNode` call is made, and on
success the fresh handle and timestamp are written back under the
identity-derived cache key; a falsy or failing download degrades to
returning the raw descriptor under the plain key. -/
def mapMedia (env : MediaEnv) (key : String) (media : Option MediaDesc) : MediaOut :=
  match media with
  | none => ⟨key ++ "___NODE", MediaValue.undef, 0, [], []⟩
  | some m =>
    if m.url = "" then ⟨key ++ "___NODE", MediaValue.undef, 0, [], []⟩
    else
      let cacheKey := "strapi-media-" ++ toString m.id
      let hit := match alookup env.cache cacheKey with
        | some cd =>
          if m.updated_at = cd.updated_at && env.getNode cd.fileNodeID then
            some cd.fileNodeID
          else none
        | none => none
      match hit with
      | some fileNodeID => ⟨key ++ "___NODE", MediaValue.ref fileNodeID, 0, [fileNodeID], []⟩
      | none =>
        match env.blob with
        | BlobResult.ok fid =>
          ⟨key ++ "___NODE", MediaValue.ref fid, 1, [], [(cacheKey, ⟨fid, m.updated_at⟩)]⟩
        | BlobResult.nil => ⟨key, MediaValue.fallback m, 1, [], []⟩
        | BlobResult.err => ⟨key, MediaValue.fallback m, 1, [], []⟩

/-! ## The recursive content mapper
(`mapEntityType` / `mapAttribute` / `mapComponent` / `mapRelation` /
`mapDynamicZone`)

The TS methods are `async` and recurse without a bound; the embedding
takes a fuel argument decremented at every call (running out of fuel is
an artificial error that a real execution never reaches — theorems
about successful runs hold for every fuel value). -/

/-- JavaScript property assignment `obj[key] = v` on a mapped record:
an existing key keeps its position and is overwritten, a new key is
appended. -/
def setFieldM : List (String × MValue) → String → MValue → List (String × MValue)
  | [], key, v => [(key, v)]
  | (k, w) :: rest, key, v =>
    if k = key then (key, v) :: rest else (k, w) :: setFieldM rest key v

/-- Environment of the content mapper: the type registry maps and the
external collaborators (the hash/id functions of `mapRichtext` and
`mapMedia`, whose cache and network effects are modelled separately by
`StrapiSource.mapMedia`). -/
structure MapperEnv where
  contentTypeMap : List (String × EntityType)
  componentTypeMap : List (String × EntityType)
  richtext : RichtextEnv
  mapMedia : String → Option JValue → String × MValue

mutual

/-- Embedding of `mapEntityType`: map every attribute of the schema over the raw
record (reading `data[key]`), wrapping any error as
`Error mapping type <apiID>: <err>`. -/
def mapEntityTypeF (env : MapperEnv) :
    Nat → EntityType → JValue → Except StrapiSourceError (List (String × MValue))
  | 0, _, _ => Except.error ⟨"out of fuel"⟩
  | fuel+1, et, d =>
    match mapFieldsF env fuel et.schema.attributes d with
    | Except.error e =>
      Except.error ⟨"Error mapping type " ++ et.apiID ++ ": " ++ e.message⟩
    | Except.ok fields => Except.ok fields

/-- The `attributes.map(([key, attribute]) => this.mapAttribute(attribute,
key, data[key]))` / `Promise.all` step: first failure aborts. -/
def mapFieldsF (env : MapperEnv) :
    Nat → List (String × Attribute) → JValue →
      Except StrapiSourceError (List (String × MValue))
  | 0, _, _ => Except.error ⟨"out of fuel"⟩
  | _+1, [], _ => Except.ok []
  | fuel+1, (key, attr) :: rest, d =>
    match mapAttributeF env fuel attr key (jsGet d key) with
    | Except.error e => Except.error e
    | Except.ok f =>
      match mapFieldsF env fuel rest d with
      | Except.error e => Except.error e
      | Except.ok fs => Except.ok (f :: fs)

/-- Embedding of `mapAttribute`: dispatch on the `type` string of the attribute; the
scalar cases and the `default` both return `[key, data]` unchanged. -/
def mapAttributeF (env : MapperEnv) :
    Nat → Attribute → String → Option JValue →
      Except StrapiSourceError (String × MValue)
  | 0, _, _, _ => Except.error ⟨"out of fuel"⟩
  | fuel+1, attr, key, v =>
    match attr.type with
    | "richtext" => Except.ok (mapRichtext env.richtext key v).1
    | "media" => Except.ok (env.mapMedia key v)
    | "relation" => mapRelationF env fuel attr key v
    | "component" => mapComponentF env fuel attr key v
    | "dynamiczone" => mapDynamicZoneF env fuel attr key v
    | _ => Except.ok (key, rawField v)

/-- Embedding of `mapComponent`: `undefined`/`null` pass through; unknown component
type throws; `repeatable` expects an array and maps every element;
otherwise anything of `typeof === "object"` (note: in JS this includes
arrays) is mapped as a single component object. -/
def mapComponentF (env : MapperEnv) :
    Nat → Attribute → String → Option JValue →
      Except StrapiSourceError (String × MValue)
  | 0, _, _, _ => Except.error ⟨"out of fuel"⟩
  | fuel+1, attr, key, v =>
    match v with
    | none => Except.ok (key, MValue.undef)
    | some JValue.null => Except.ok (key, MValue.raw JValue.null)
    | some d =>
      match alookup env.componentTypeMap attr.component with
      | none => Except.error ⟨"Could not find component type " ++ attr.component⟩
      | some type =>
        if attr.repeatable then
          match d with
          | JValue.arr items =>
            match mapItemsF env fuel type items with
            | Except.error e => Except.error e
            | Except.ok ms => Except.ok (key, MValue.list ms)
          | _ =>
            Except.error
              ⟨"Expected object for field " ++ key ++ ", but got " ++ jsTypeof (some d)⟩
        else
          if jsTypeof (some d) = "object" then
            match mapEntityTypeF env fuel type d with
            | Except.error e => Except.error e
            | Except.ok fields => Except.ok (key, MValue.node fields)
          else
            Except.error
              ⟨"Expected object for field " ++ key ++ ", but got " ++ jsTypeof (some d)⟩

/-- The `data.map(d => this.mapEntityType(type, d))` step of a
repeatable component. -/
def mapItemsF (env : MapperEnv) :
    Nat → EntityType → List JValue → Except StrapiSourceError (List MValue)
  | 0, _, _ => Except.error ⟨"out of fuel"⟩
  | _+1, _, [] => Except.ok []
  | fuel+1, type, item :: rest =>
    match mapEntityTypeF env fuel type item with
    | Except.error e => Except.error e
    | Except.ok fields =>
      match mapItemsF env fuel type rest with
      | Except.error e => Except.error e
      | Except.ok ms => Except.ok (MValue.node fields :: ms)

/-- Embedding of `mapRelation`: `undefined`/`null` and bare numeric ids pass
through; other non-objects throw; an embedded object resolves the
target content type and is mapped recursively. -/
def mapRelationF (env : MapperEnv) :
    Nat → Attribute → String → Option JValue →
      Except StrapiSourceError (String × MValue)
  | 0, _, _, _ => Except.error ⟨"out of fuel"⟩
  | fuel+1, attr, key, v =>
    match v with
    | none => Except.ok (key, MValue.undef)
    | some JValue.null => Except.ok (key, MValue.raw JValue.null)
    | some (JValue.num n) => Except.ok (key, MValue.raw (JValue.num n))
    | some d =>
      if jsTypeof (some d) = "object" then
        match alookup env.contentTypeMap attr.model with
        | none => Except.error ⟨"Could not find relation type " ++ attr.model⟩
        | some type =>
          match mapEntityTypeF env fuel type d with
          | Except.error e => Except.error e
          | Except.ok fields => Except.ok (key, MValue.node fields)
      else
        Except.error
          ⟨"Expected object for field " ++ key ++ ", but got " ++ jsTypeof (some d)⟩

/-- Embedding of `mapDynamicZone`: `undefined`/`null` pass through; non-arrays
throw; each item is discriminated by its `__component` field, mapped
through the resolved component type, then annotated with `internal`
and `_type` discriminators. -/
def mapDynamicZoneF (env : MapperEnv) :
    Nat → Attribute → String → Option JValue →
      Except StrapiSourceError (String × MValue)
  | 0, _, _, _ => Except.error ⟨"out of fuel"⟩
  | fuel+1, _, key, v =>
    match v with
    | none => Except.ok (key, MValue.undef)
    | some JValue.null => Except.ok (key, MValue.raw JValue.null)
    | some (JValue.arr items) =>
      match mapZoneItemsF env fuel items with
      | Except.error e => Except.error e
      | Except.ok ms => Except.ok (key, MValue.list ms)
    | some d =>
      Except.error
        ⟨"Expected array for field " ++ key ++ ", but got " ++ jsTypeof (some d)⟩

/-- The per-item step of `mapDynamicZone`. -/
def mapZoneItemsF (env : MapperEnv) :
    Nat → List JValue → Except StrapiSourceError (List MValue)
  | 0, _ => Except.error ⟨"out of fuel"⟩
  | _+1, [] => Except.ok []
  | fuel+1, item :: rest =>
    match jsGet item "__component" with
    | some (JValue.str typeName) =>
      match alookup env.componentTypeMap typeName with
      | none => Except.error ⟨"Could not find component type " ++ typeName⟩
      | some type =>
        match mapEntityTypeF env fuel type item with
        | Except.error e => Except.error e
        | Except.ok itemData =>
          let tn := getTypeName type
          let d2 :=
            setFieldM
              (setFieldM itemData "internal" (MValue.node [("type", MValue.raw (JValue.str tn))]))
              "_type" (MValue.raw (JValue.str tn))
          match mapZoneItemsF env fuel rest with
          | Except.error e => Except.error e
          | Except.ok ms => Except.ok (MValue.node d2 :: ms)
    | _ => Except.error ⟨"Missing __component field"⟩

end

/-! ## Entity fetcher (`fetchEntities`)

The server side of a collection endpoint is modelled as the full list
of entities; the query `?_limit=pageSize&_start=index` returns the
slice `(server.drop index).take pageSize`.  The embedding recurses on
the not-yet-fetched suffix, with fuel standing in for the unbounded
`while (true)` loop. -/

/-- The collection pagination loop: fetch a page, stop when it is
shorter than `pageSize`, else continue behind it.  Returns the list of
fetched pages (the source accumulates `result.push(...response)` and
counts one fetch per loop iteration, i.e. per returned page). -/
def collectPages {α : Type} (pageSize : Nat) : Nat → List α → List (List α)
  | 0, _ => []
  | fuel+1, remaining =>
    let response := remaining.take pageSize
    if response.length < pageSize then [response]
    else response :: collectPages pageSize fuel (remaining.drop pageSize)

/-- The collection branch of `fetchEntities`: the concatenated entities
together with the number of page fetches performed. -/
def fetchEntitiesCollection {α : Type} (pageSize : Nat) (server : List α) :
    List α × Nat :=
  let pages := collectPages pageSize (server.length + 1) server
  (pages.flatten, pages.length)

/-- Embedding of `fetchEntities`: a `singleType` issues exactly one fetch of the
base endpoint, everything else paginates the pluralized endpoint. -/
def fetchEntities {α : Type} (ct : EntityType) (single : α)
    (server : List α) (pageSize : Nat) : List α × Nat :=
  if ct.schema.kind = "singleType" then ([single], 1)
  else fetchEntitiesCollection pageSize server

/-! ## Type definition generator
(`defineType` / `mapEntityTypeToType` / `mapAttributeToType` /
`mapRelationToType` / `mapComponentToType`)

`this.graphqlTypes` is modelled as an association list from type name
to `Option TypeDecl` (`none` is the `undefined` placeholder reserved
before the fields of a type are computed).  The recursion is fuel-bounded;
claim C6 proves an explicit sufficient fuel bound. -/

/-- A GraphQL object type built by `schema.buildObjectType` (name,
interfaces, field name → field type string). -/
structure TypeDecl where
  name : String
  interfaces : Option (List String)
  fields : List (String × String)
  deriving DecidableEq, Repr

/-- The `graphqlTypes` map: insertion-ordered, one entry per name. -/
abbrev GState := List (String × Option TypeDecl)

/-- Model of `Map.has`. -/
def hasKey (s : GState) (k : String) : Bool :=
  (alookup s k).isSome

/-- Model of `Map.set`: overwrite in place, or append a new entry. -/
def setKey : GState → String → Option TypeDecl → GState
  | [], k, v => [(k, v)]
  | (k1, v1) :: rest, k, v =>
    if k1 = k then (k, v) :: rest else (k1, v1) :: setKey rest k v

/-- The type registry built by `fetchTypes`: content types keyed by
`apiID`, components keyed by `uid`. -/
structure Registry where
  contentTypeMap : List (String × EntityType)
  componentTypeMap : List (String × EntityType)
  deriving DecidableEq, Repr

mutual

/-- Embedding of `defineType`: memoized construction of one declaration.  If the
name is already present (even as the in-flight `undefined`
placeholder) return it immediately; otherwise reserve the slot, build
the fields (which may re-enter `defineType`), and store the finished
declaration under the same name. -/
def defineTypeF (reg : Registry) :
    Nat → EntityType → GState → Option (Option TypeDecl × GState)
  | 0, _, _ => none
  | fuel+1, ct, s =>
    let fullTypeName := getTypeName ct
    if hasKey s fullTypeName then
      some ((alookup s fullTypeName).join, s)
    else
      let s1 := setKey s fullTypeName none
      match mapEntityTypeToTypeF reg fuel ct.schema.attributes s1 with
      | none => none
      | some (fields, s2) =>
        let td : TypeDecl :=
          ⟨fullTypeName,
            if ct.schema.modelType = "contentType" then some ["Node"] else none,
            fields⟩
        some (some td, setKey s2 fullTypeName (some td))

/-- Embedding of `mapEntityTypeToType`: derive a field per attribute, dropping
attributes whose `mapAttributeToType` yields nothing. -/
def mapEntityTypeToTypeF (reg : Registry) :
    Nat → List (String × Attribute) → GState →
      Option (List (String × String) × GState)
  | 0, _, _ => none
  | _+1, [], s => some ([], s)
  | fuel+1, (key, attr) :: rest, s =>
    match mapAttributeToTypeF reg fuel attr key s with
    | none => none
    | some (fieldOpt, s1) =>
      match mapEntityTypeToTypeF reg fuel rest s1 with
      | none => none
      | some (fields, s2) =>
        some
          ((match fieldOpt with
            | some f => (key, f) :: fields
            | none => fields), s2)

/-- Embedding of `mapAttributeToType`: scalar kinds map to primitive GraphQL types
with a `!` suffix when required; relations and components dispatch to
their helpers.  The `dynamiczone` case is commented out in the source
and — like every unknown kind — falls off the switch, yielding no
field. -/
def mapAttributeToTypeF (reg : Registry) :
    Nat → Attribute → String → GState → Option (Option String × GState)
  | 0, _, _, _ => none
  | fuel+1, attr, key, s =>
    let reqSuffix := if attr.required then "!" else ""
    match attr.type with
    | "string" => some (some ("String" ++ reqSuffix), s)
    | "enumeration" => some (some ("String" ++ reqSuffix), s)
    | "richtext" => some (some ("StrapiMarkdownString" ++ reqSuffix), s)
    | "datetime" => some (some ("Date" ++ reqSuffix), s)
    | "timestamp" => some (some ("Date" ++ reqSuffix), s)
    | "integer" => some (some ("Int" ++ reqSuffix), s)
    | "media" => some (some ("File" ++ reqSuffix), s)
    | "relation" => mapRelationToTypeF reg fuel attr key s
    | "component" => mapComponentToTypeF reg fuel attr key s
    | _ => some (none, s)

/-- Embedding of `mapRelationToType`: resolve `attribute.model` in the content-type
map; unknown targets are dropped with a warning, known ones trigger
`defineType` and are referenced by name. -/
def mapRelationToTypeF (reg : Registry) :
    Nat → Attribute → String → GState → Option (Option String × GState)
  | 0, _, _, _ => none
  | fuel+1, attr, _, s =>
    match alookup reg.contentTypeMap attr.model with
    | none => some (none, s)
    | some type =>
      match defineTypeF reg fuel type s with
      | none => none
      | some (_, s1) => some (some (getTypeName type), s1)

/-- Embedding of `mapComponentToType`: the source looks `attribute.component` up in
`this.contentTypeMap` (not `componentTypeMap`); unknown targets are
dropped with a warning, known ones trigger `defineType` and are
referenced by name. -/
def mapComponentToTypeF (reg : Registry) :
    Nat → Attribute → String → GState → Option (Option String × GState)
  | 0, _, _, _ => none
  | fuel+1, attr, _, s =>
    match alookup reg.contentTypeMap attr.component with
    | none => some (none, s)
    | some type =>
      match defineTypeF reg fuel type s with
      | none => none
      | some (_, s1) => some (some (getTypeName type), s1)

end

/-! ## Helper lemmas -/

theorem alookup_eq_some_of_mem_of_nodup {β : Type} :
    ∀ (l : List (String × β)) (k : String) (v : β),
      (k, v) ∈ l → (l.map Prod.fst).Nodup → alookup l k = some v := by
  intro l
  induction l with
  | nil => intro k v h _; cases h
  | cons hd tl ih =>
    intro k v hmem hnd
    rcases hd with ⟨k1, v1⟩
    simp only [List.map_cons, List.nodup_cons] at hnd
    rcases List.mem_cons.mp hmem with heq | htl
    · cases heq
      simp [alookup]
    · have hk : k1 ≠ k := by
        intro h
        exact hnd.1 (h ▸ List.mem_map_of_mem Prod.fst htl)
      simp [alookup, hk, ih k v htl hnd.2]

/-- If the per-attribute mapping pass succeeds, then every schema
attribute contributed the entry its own `mapAttribute` call (at some
fuel value) returned. -/
theorem mapFieldsF_mem (env : MapperEnv) :
    ∀ (attrs : List (String × Attribute)) (f : Nat) (d : JValue)
      (res : List (String × MValue)),
      mapFieldsF env f attrs d = Except.ok res →
      ∀ key attr, (key, attr) ∈ attrs →
        ∃ g r, mapAttributeF env g attr key (jsGet d key) = Except.ok r ∧ r ∈ res := by
  intro attrs
  induction attrs with
  | nil => intro f d res _ key attr h; cases h
  | cons hd tl ih =>
    intro f d res hok key attr hmem
    rcases hd with ⟨k1, a1⟩
    match f with
    | 0 => simp [mapFieldsF] at hok
    | f+1 =>
      simp only [mapFieldsF] at hok
      rcases h1 : mapAttributeF env f a1 k1 (jsGet d k1) with e | r1
      · rw [h1] at hok; simp at hok
      · rw [h1] at hok
        rcases h2 : mapFieldsF env f tl d with e | rs
        · rw [h2] at hok; simp at hok
        · rw [h2] at hok
          simp only [Except.ok.injEq] at hok
          subst hok
          rcases List.mem_cons.mp hmem with heq | htl
          · cases heq
            exact ⟨f, r1, h1, List.mem_cons_self _ _⟩
          · rcases ih f d rs h2 key attr htl with ⟨g, r, hg, hr⟩
            exact ⟨g, r, hg, List.mem_cons_of_mem _ hr⟩

/-- C9 auxiliary: on a scalar type tag, `mapAttribute` is the identity
on the value, under the same key. -/
theorem mapAttributeF_scalar (env : MapperEnv) (f : Nat) (attr : Attribute)
    (key : String) (v : Option JValue)
    (hs : attr.type ∈ ["string", "integer", "enumeration", "timestamp", "datetime"]) :
    mapAttributeF env (f+1) attr key v = Except.ok (key, rawField v) := by
  simp only [List.mem_cons, List.not_mem_nil, or_false] at hs
  rcases hs with h | h | h | h | h <;>
    simp [mapAttributeF, h]

/-- C9 (confirmed).  For every scalar attribute (string, integer,
enumeration, timestamp, datetime), `mapEntity` is the identity
function on the value of that field: whenever the mapping of a record
succeeds, the mapped record contains the raw input value unchanged
under the same key, and (as long as the emitted keys are distinct)
looking the key up in the mapped record yields exactly that raw
value. -/
theorem mapEntityType_scalar_identity (env : MapperEnv) (fuel : Nat)
    (et : EntityType) (d : JValue) (res : List (String × MValue))
    (key : String) (attr : Attribute)
    (hok : mapEntityTypeF env fuel et d = Except.ok res)
    (hmem : (key, attr) ∈ et.schema.attributes)
    (hs : attr.type ∈ ["string", "integer", "enumeration", "timestamp", "datetime"]) :
    (key, rawField (jsGet d key)) ∈ res ∧
      ((res.map Prod.fst).Nodup → alookup res key = some (rawField (jsGet d key))) := by
  match fuel with
  | 0 => simp [mapEntityTypeF] at hok
  | fuel+1 =>
    simp only [mapEntityTypeF] at hok
    rcases h1 : mapFieldsF env fuel et.schema.attributes d with e | fields
    · rw [h1] at hok; simp at hok
    · rw [h1] at hok
      simp only [Except.ok.injEq] at hok
      subst hok
      rcases mapFieldsF_mem env et.schema.attributes fuel d fields h1 key attr hmem with
        ⟨g, r, hg, hr⟩
      match g with
      | 0 => simp [mapAttributeF] at hg
      | g+1 =>
        rw [mapAttributeF_scalar env g attr key (jsGet d key) hs] at hg
        simp only [Except.ok.injEq] at hg
        subst hg
        exact ⟨hr, fun hnd => alookup_eq_some_of_mem_of_nodup _ _ _ hr hnd⟩

/-- Witness for C9 at a concrete record. -/
theorem mapEntityType_scalar_identity_witness :
    (("title", rawField (jsGet (JValue.obj [("title", JValue.str "hi")]) "title")) ∈
        [("title", MValue.raw (JValue.str "hi"))] ∧
      (([("title", MValue.raw (JValue.str "hi"))].map
            (Prod.fst (α := String) (β := MValue))).Nodup →
        alookup [("title", MValue.raw (JValue.str "hi"))] "title" =
          some (rawField (jsGet (JValue.obj [("title", JValue.str "hi")]) "title")))) := by
  refine mapEntityType_scalar_identity
    ⟨[], [], ⟨id, id⟩, fun k _ => (k, MValue.undef)⟩ 3
    ⟨"api::x", "x", ⟨"collectionType", "contentType",
      [("title", ⟨"string", false, false, "", "", []⟩)]⟩⟩
    (JValue.obj [("title", JValue.str "hi")])
    [("title", MValue.raw (JValue.str "hi"))]
    "title" ⟨"string", false, false, "", "", []⟩ ?_ ?_ ?_
  · simp [mapEntityTypeF, mapFieldsF, mapAttributeF, jsGet, alookup, rawField]
  all_goals simp

/-- C10 (confirmed).  An attribute whose `type` tag is none of the
known kinds falls into the `default` branch of `mapAttribute` and is
passed through unchanged under its original key, exactly like a
scalar. -/
theorem mapAttribute_unknown_type_identity (env : MapperEnv) (fuel : Nat)
    (attr : Attribute) (key : String) (v : Option JValue)
    (h : attr.type ∉
      ["string", "integer", "enumeration", "timestamp", "datetime",
        "richtext", "media", "relation", "component", "dynamiczone"]) :
    mapAttributeF env (fuel+1) attr key v = Except.ok (key, rawField v) := by
  simp only [List.mem_cons, List.not_mem_nil, or_false, not_or] at h
  obtain ⟨-, -, -, -, -, h6, h7, h8, h9, h10⟩ := h
  simp only [mapAttributeF]

/-- Witness for C10 at the tag `"json"`. -/
theorem mapAttribute_unknown_type_identity_witness :
    mapAttributeF ⟨[], [], ⟨id, id⟩, fun k _ => (k, MValue.undef)⟩ 1
        ⟨"json", false, false, "", "", []⟩ "extra" (some (JValue.num 7)) =
      Except.ok ("extra", rawField (some (JValue.num 7))) := by
  exact mapAttribute_unknown_type_identity
    ⟨[], [], ⟨id, id⟩, fun k _ => (k, MValue.undef)⟩ 0
    ⟨"json", false, false, "", "", []⟩ "extra" (some (JValue.num 7)) (by decide)

/-- A minimal component type (one string attribute) used as a concrete
registry entry. -/
def sampleComponent : EntityType :=
  ⟨"comp.a", "compA",
    ⟨"collectionType", "component", [("title", ⟨"string", false, false, "", "", []⟩)]⟩⟩

/-- A mapper environment whose component registry resolves
`"comp.a"`. -/
def sampleMapperEnv : MapperEnv :=
  ⟨[], [("comp.a", sampleComponent)], ⟨id, id⟩, fun k _ => (k, MValue.undef)⟩

/-- C1 (code bug).  A `component` attribute with `repeatable=false`
whose target resolves, given an array input, is *not* rejected
with a shape-mismatch `MappingError`: in JavaScript
`typeof [] === "object"`, so the `typeof data` guard of
`mapComponent` lets the array through and it is mapped as if it were a
single component object (every schema attribute reads `undefined` off
the array).  The claim (and the end-to-end scenario of the spec)
require a `MappingError` here. -/
theorem mapComponent_nonrepeatable_array_not_rejected :
    mapComponentF sampleMapperEnv 10
        ⟨"component", false, false, "comp.a", "", []⟩ "section"
        (some (JValue.arr [])) =
      Except.ok ("section", MValue.node [("title", MValue.undef)]) := by
  simp [mapComponentF, sampleMapperEnv, sampleComponent, alookup, jsTypeof,
    mapEntityTypeF, mapFieldsF, mapAttributeF, jsGet, rawField]

/-! ## C4: rich text mapping -/

/-- C4, counterexample.  The claim says a side node is synthesized
*iff* the source value is a non-empty string.  The code only checks
whether `typeof data` is `string`, so the empty string — which is not a
non-empty string — also synthesizes a markdown side node. -/
theorem mapRichtext_empty_string_creates_node :
    ((mapRichtext ⟨id, id⟩ "intro" (some (JValue.str ""))).2).isSome = true := by
  rfl

/-- C4 (corrected: "non-empty string" must read "string").  Rich
text mapping: (1) a string value synthesizes exactly the markdown side
node content-addressed by `createNodeId (hashString text)` and stores
a reference to it under `key___NODE`; (2) a non-string (or absent)
value maps to an absent reference and no side node, without error;
(3) identical text yields the same side-node id regardless of the
owning key; (4) if the hash and id functions are injective, different
text yields distinct side-node ids. -/
theorem mapRichtext_spec (env : RichtextEnv) (key key2 : String)
    (s t : String) (data : Option JValue) :
    (mapRichtext env key (some (JValue.str s)) =
      ((key ++ "___NODE", MValue.nodeRef (env.createNodeId (env.hashString s))),
        some ⟨env.createNodeId (env.hashString s), s, "StrapiMarkdownString",
          "text/markdown", s, env.hashString s⟩)) ∧
    (jsTypeof data ≠ "string" →
      mapRichtext env key data = ((key ++ "___NODE", MValue.undef), none)) ∧
    ((mapRichtext env key (some (JValue.str s))).2.map MarkdownNode.id =
      (mapRichtext env key2 (some (JValue.str s))).2.map MarkdownNode.id) ∧
    (Function.Injective env.hashString → Function.Injective env.createNodeId →
      s ≠ t →
      (mapRichtext env key (some (JValue.str s))).2.map MarkdownNode.id ≠
        (mapRichtext env key (some (JValue.str t))).2.map MarkdownNode.id) := by
  refine ⟨rfl, ?_, rfl, ?_⟩
  · intro h
    match data with
    | none => rfl
    | some JValue.null => rfl
    | some (JValue.bool _) => rfl
    | some (JValue.num _) => rfl
    | some (JValue.str u) => exact absurd rfl h
    | some (JValue.arr _) => rfl
    | some (JValue.obj _) => rfl
  · intro hh hc hst
    simp only [mapRichtext, Option.map_some]
    intro heq
    exact hst (hh (hc (by simpa using heq)))

/-- Witness for C4 at concrete inputs. -/
theorem mapRichtext_spec_witness :
    (mapRichtext ⟨id, id⟩ "intro" (some (JValue.str "# Hi")) =
      (("intro" ++ "___NODE", MValue.nodeRef "# Hi"),
        some ⟨"# Hi", "# Hi", "StrapiMarkdownString", "text/markdown", "# Hi", "# Hi"⟩)) ∧
    (mapRichtext ⟨id, id⟩ "intro" (some JValue.null) =
      (("intro" ++ "___NODE", MValue.undef), none)) ∧
    ((mapRichtext ⟨id, id⟩ "intro" (some (JValue.str "a"))).2.map MarkdownNode.id ≠
      (mapRichtext ⟨id, id⟩ "intro" (some (JValue.str "b"))).2.map MarkdownNode.id) := by
  refine ⟨(mapRichtext_spec ⟨id, id⟩ "intro" "x" "# Hi" "y" none).1,
    (mapRichtext_spec ⟨id, id⟩ "intro" "x" "s" "t" (some JValue.null)).2.1 (by decide),
    (mapRichtext_spec ⟨id, id⟩ "intro" "x" "a" "b" none).2.2.2
      (fun a b h => h) (fun a b h => h) (by decide)⟩

/-! ## C7 / C8: media cache -/

/-- C7 (confirmed).  With a present descriptor and URL: (1) if the
cache holds an entry under the identity key whose `updated_at` equals
that of the descriptor and whose stored handle still resolves to a live
node, `mapMedia` reuses that handle, touches it, performs zero
Blob Store calls and writes nothing; (2) if the stored timestamp
differs, exactly one re-materialization happens, and on success the
fresh handle with the new timestamp is written back under the same
identity-derived key. -/
theorem mapMedia_cache_hit_and_stale (env : MediaEnv) (key : String)
    (m : MediaDesc) (cd : MediaCacheEntry)
    (hurl : m.url ≠ "")
    (hcache : alookup env.cache ("strapi-media-" ++ toString m.id) = some cd) :
    ((m.updated_at = cd.updated_at → env.getNode cd.fileNodeID = true →
      mapMedia env key (some m) =
        ⟨key ++ "___NODE", MediaValue.ref cd.fileNodeID, 0, [cd.fileNodeID], []⟩)) ∧
    (m.updated_at ≠ cd.updated_at →
      (mapMedia env key (some m)).blobCalls = 1 ∧
      (∀ fid, env.blob = BlobResult.ok fid →
        mapMedia env key (some m) =
          ⟨key ++ "___NODE", MediaValue.ref fid, 1, [],
            [("strapi-media-" ++ toString m.id, ⟨fid, m.updated_at⟩)]⟩)) := by
  constructor
  · intro hts hlive
    simp [mapMedia, hurl, hcache, hts, hlive]
  · intro hts
    constructor
    · rcases hb : env.blob with fid | _ | _ <;>
        simp [mapMedia, hurl, hcache, hts, hb]
    · intro fid hb
      simp [mapMedia, hurl, hcache, hts, hb]

/-- Witness for C7: a hit and a stale entry at concrete values. -/
theorem mapMedia_cache_hit_and_stale_witness :
    ((("2020" : String) = "2020" → (fun (_ : String) => true) "node-1" = true →
      mapMedia ⟨[("strapi-media-5", ⟨"node-1", "2020"⟩)], fun _ => true,
          BlobResult.ok "node-2", "http://localhost:1337"⟩
        "cover" (some ⟨5, "/up.png", "2020"⟩) =
        ⟨"cover" ++ "___NODE", MediaValue.ref "node-1", 0, ["node-1"], []⟩)) ∧
    (("2021" : String) ≠ "2020" →
      (mapMedia ⟨[("strapi-media-5", ⟨"node-1", "2020"⟩)], fun _ => true,
          BlobResult.ok "node-2", "http://localhost:1337"⟩
        "cover" (some ⟨5, "/up.png", "2021"⟩)).blobCalls = 1 ∧
      (∀ fid,
        BlobResult.ok "node-2" = BlobResult.ok fid →
        mapMedia ⟨[("strapi-media-5", ⟨"node-1", "2020"⟩)], fun _ => true,
            BlobResult.ok "node-2", "http://localhost:1337"⟩
          "cover" (some ⟨5, "/up.png", "2021"⟩) =
          ⟨"cover" ++ "___NODE", MediaValue.ref fid, 1, [],
            [("strapi-media-5", ⟨fid, "2021"⟩)]⟩)) := by
  constructor
  · exact (mapMedia_cache_hit_and_stale
      ⟨[("strapi-media-5", ⟨"node-1", "2020"⟩)], fun _ => true,
        BlobResult.ok "node-2", "http://localhost:1337"⟩
      "cover" ⟨5, "/up.png", "2020"⟩ ⟨"node-1", "2020"⟩ (by decide) (by rfl)).1
  · exact (mapMedia_cache_hit_and_stale
      ⟨[("strapi-media-5", ⟨"node-1", "2020"⟩)], fun _ => true,
        BlobResult.ok "node-2", "http://localhost:1337"⟩
      "cover" ⟨5, "/up.png", "2021"⟩ ⟨"node-1", "2020"⟩ (by decide) (by rfl)).2

/-- C8 (confirmed).  Media resolution never raises (the embedding
is a total function): an absent descriptor or one without a URL maps
to an absent reference, and a Blob Store failure (a thrown error or a
falsy file node) on the download path degrades to passing the raw
descriptor through under the plain key — the cache-hit path being the
only other possibility — so no media field ever aborts the mapping of
its record. -/
theorem mapMedia_never_raises (env : MediaEnv) (key : String)
    (media : Option MediaDesc) :
    (media = none →
      mapMedia env key media = ⟨key ++ "___NODE", MediaValue.undef, 0, [], []⟩) ∧
    (∀ m, media = some m → m.url = "" →
      mapMedia env key media = ⟨key ++ "___NODE", MediaValue.undef, 0, [], []⟩) ∧
    (∀ m, media = some m → m.url ≠ "" →
      env.blob = BlobResult.err ∨ env.blob = BlobResult.nil →
      (∃ fid, mapMedia env key media =
          ⟨key ++ "___NODE", MediaValue.ref fid, 0, [fid], []⟩) ∨
        (mapMedia env key media).key = key ∧
          (mapMedia env key media).value = MediaValue.fallback m) := by
  refine ⟨?_, ?_, ?_⟩
  · intro h; subst h; rfl
  · intro m h hurl; subst h; simp [mapMedia, hurl]
  · intro m h hurl hb
    subst h
    simp only [mapMedia, hurl, if_neg (by exact hurl)]
    rcases hl : alookup env.cache ("strapi-media-" ++ toString m.id) with _ | cd
    · rcases hb with hb | hb <;> simp [hl, hb]
    · by_cases hc : m.updated_at = cd.updated_at ∧ env.getNode cd.fileNodeID = true
      · left
        exact ⟨cd.fileNodeID, by simp [hl, hc.1, hc.2]⟩
      · right
        rw [not_and_or] at hc
        rcases hb with hb | hb <;>
          rcases hc with hc | hc <;>
            simp [hl, hb, hc]

/-- Witness for C8: an absent descriptor, an empty URL, and a failing
download at concrete values. -/
theorem mapMedia_never_raises_witness :
    (mapMedia ⟨[], fun _ => false, BlobResult.err, "http://localhost:1337"⟩
        "cover" none =
      ⟨"cover" ++ "___NODE", MediaValue.undef, 0, [], []⟩) ∧
    (mapMedia ⟨[], fun _ => false, BlobResult.err, "http://localhost:1337"⟩
        "cover" (some ⟨5, "", "2020"⟩) =
      ⟨"cover" ++ "___NODE", MediaValue.undef, 0, [], []⟩) ∧
    ((∃ fid,
        mapMedia ⟨[], fun _ => false, BlobResult.err, "http://localhost:1337"⟩
            "cover" (some ⟨5, "/up.png", "2020"⟩) =
          ⟨"cover" ++ "___NODE", MediaValue.ref fid, 0, [fid], []⟩) ∨
      (mapMedia ⟨[], fun _ => false, BlobResult.err, "http://localhost:1337"⟩
            "cover" (some ⟨5, "/up.png", "2020"⟩)).key = "cover" ∧
        (mapMedia ⟨[], fun _ => false, BlobResult.err, "http://localhost:1337"⟩
            "cover" (some ⟨5, "/up.png", "2020"⟩)).value =
          MediaValue.fallback ⟨5, "/up.png", "2020"⟩) := by
  refine ⟨?_, ?_, ?_⟩
  · exact (mapMedia_never_raises
      ⟨[], fun _ => false, BlobResult.err, "http://localhost:1337"⟩ "cover" none).1 rfl
  · exact (mapMedia_never_raises
      ⟨[], fun _ => false, BlobResult.err, "http://localhost:1337"⟩ "cover"
      (some ⟨5, "", "2020"⟩)).2.1 ⟨5, "", "2020"⟩ rfl rfl
  · exact (mapMedia_never_raises
      ⟨[], fun _ => false, BlobResult.err, "http://localhost:1337"⟩ "cover"
      (some ⟨5, "/up.png", "2020"⟩)).2.2 ⟨5, "/up.png", "2020"⟩ rfl (by decide)
      (Or.inl rfl)

/-! ## C5: pagination -/

/-- Core pagination invariant: with positive page size and enough fuel
(one unit per page suffices since every full page consumes `pageSize ≥ 1`
entities), the loop returns pages whose concatenation is the whole
collection, makes `N / pageSize + 1` fetches, and — when the collection
size is an exact multiple of the page size — ends with an empty page. -/
theorem collectPages_spec {α : Type} (p : Nat) (hp : 0 < p) :
    ∀ (fuel : Nat) (rem : List α), rem.length < fuel →
      (collectPages p fuel rem).flatten = rem ∧
      (collectPages p fuel rem).length = rem.length / p + 1 ∧
      (p ∣ rem.length → (collectPages p fuel rem).getLast? = some []) := by
  intro fuel
  induction fuel with
  | zero => intro rem h; exact absurd h (Nat.not_lt_zero _)
  | succ f ih =>
    intro rem hlen
    by_cases hshort : rem.length < p
    · have htake : rem.take p = rem := List.take_of_length_le (Nat.le_of_lt hshort)
      have hcond : (rem.take p).length < p := by rw [htake]; exact hshort
      refine ⟨?_, ?_, ?_⟩
      · simp [collectPages, htake, hshort]
      · simp [collectPages, htake, hshort, Nat.div_eq_of_lt hshort]
      · intro hdvd
        have h0 : rem.length = 0 := Nat.eq_zero_of_dvd_of_lt hdvd hshort
        have : rem = [] := List.length_eq_zero.mp h0
        subst this
        simp [collectPages, hp]
    · push_neg at hshort
      have hlt : (rem.take p).length = p := by
        rw [List.length_take]
        exact Nat.min_eq_left hshort
      have hcond : ¬ (rem.take p).length < p := by rw [hlt]; exact Nat.lt_irrefl p
      have hdroplen : (rem.drop p).length = rem.length - p := List.length_drop p rem
      have hih : (rem.drop p).length < f := by
        rw [hdroplen]
        have h1 : rem.length < f + p := Nat.lt_of_lt_of_le hlen (by omega)
        omega
      rcases ih (rem.drop p) hih with ⟨hflat, hcount, hlast⟩
      have hne : collectPages p f (rem.drop p) ≠ [] := by
        intro h
        rw [h] at hcount
        simp at hcount
      refine ⟨?_, ?_, ?_⟩
      · simp only [collectPages, if_neg hcond, List.flatten_cons, hflat]
        exact List.take_append_drop p rem
      · simp only [collectPages, if_neg hcond, List.length_cons, hcount, hdroplen]
        rw [Nat.div_eq_sub_div hp hshort]
      · intro hdvd
        have hdvd2 : p ∣ (rem.drop p).length := by
          rw [hdroplen]
          exact Nat.dvd_sub' hdvd (Nat.dvd_refl p)
        simp only [collectPages, if_neg hcond]
        rcases hrest : collectPages p f (rem.drop p) with _ | ⟨q, qs⟩
        · exact absurd hrest hne
        · rw [List.getLast?_cons_cons]
          rw [← hrest]
          exact hlast hdvd2

/-- C5 (confirmed).  For a `Collection` type the fetcher paginates
exhaustively from offset 0 in `pageSize` steps, stopping at the first
short page: the concatenation of all fetched pages is the full
server-side collection, the number of page fetches is always
`N / pageSize + 1`, and when `N` is an exact multiple of `pageSize`
that count equals `ceil((N+1)/pageSize)` — one extra, empty, final
page fetch that terminates the loop. -/
theorem fetchEntities_collection_exhaustive {α : Type} (server : List α)
    (p : Nat) (hp : 0 < p) :
    (fetchEntitiesCollection p server).1 = server ∧
    (fetchEntitiesCollection p server).2 = server.length / p + 1 ∧
    (p ∣ server.length →
      (fetchEntitiesCollection p server).2 = (server.length + 1 + (p - 1)) / p ∧
      (collectPages p (server.length + 1) server).getLast? = some []) := by
  rcases collectPages_spec p hp (server.length + 1) server (Nat.lt_succ_self _) with
    ⟨hflat, hcount, hlast⟩
  refine ⟨hflat, hcount, fun hdvd => ⟨?_, hlast hdvd⟩⟩
  have hpsum : server.length + 1 + (p - 1) = server.length + p := by omega
  simp only [fetchEntitiesCollection]
  rw [hcount, hpsum, Nat.add_div_right _ hp]

/-- Witness for C5: page size 2 over a 4-element collection gives
pages `[a,b]`, `[c,d]`, `[]` — three fetches, exact concatenation,
empty last page. -/
theorem fetchEntities_collection_exhaustive_witness :
    (fetchEntitiesCollection 2 [10, 11, 12, 13]).1 = [10, 11, 12, 13] ∧
    (fetchEntitiesCollection 2 [10, 11, 12, 13]).2 = [10, 11, 12, 13].length / 2 + 1 ∧
    ((2 : Nat) ∣ [10, 11, 12, 13].length →
      (fetchEntitiesCollection 2 [10, 11, 12, 13]).2 =
        ([10, 11, 12, 13].length + 1 + (2 - 1)) / 2 ∧
      (collectPages 2 ([10, 11, 12, 13].length + 1) [10, 11, 12, 13]).getLast? =
        some []) :=
  fetchEntities_collection_exhaustive [10, 11, 12, 13] 2 (by decide)

/-! ## C2 / C3: type definition generator dispatch -/

/-- C2 (corrected): the amended statement.  `mapAttributeToType`
has no live `dynamiczone` case (the dispatch to
`mapDynamicZoneToType` is commented out in the source), so a
dynamiczone attribute yields no field at all — it falls off the
switch like an unknown kind, the declaration drops the attribute, the
state is untouched and no union type is synthesized. -/
theorem mapAttributeToType_dynamiczone_no_field (reg : Registry) (fuel : Nat)
    (attr : Attribute) (key : String) (s : GState)
    (h : attr.type = "dynamiczone") :
    mapAttributeToTypeF reg (fuel+1) attr key s = some (none, s) := by
  simp [mapAttributeToTypeF, h]

/-- Witness for the amended C2 statement at a concrete attribute. -/
theorem mapAttributeToType_dynamiczone_no_field_witness :
    mapAttributeToTypeF ⟨[], []⟩ 5
        ⟨"dynamiczone", false, true, "", "", ["comp.a"]⟩ "zone" [] =
      some (none, []) :=
  mapAttributeToType_dynamiczone_no_field ⟨[], []⟩ 4
    ⟨"dynamiczone", false, true, "", "", ["comp.a"]⟩ "zone" [] rfl

/-- A content type whose only attribute is a dynamic zone over
`comp.a`. -/
def pageWithZone : EntityType :=
  ⟨"api::page", "page",
    ⟨"collectionType", "contentType",
      [("zone", ⟨"dynamiczone", false, true, "", "", ["comp.a"]⟩)]⟩⟩

/-- C2, counterexample.  Running the generator on a content type
with a dynamiczone attribute produces a declaration with no field
for that attribute, and the final `graphqlTypes` state holds only the
owning type itself — no synthesized union declaration under any name —
contradicting the claim that a union-typed field is emitted. -/
theorem defineType_dynamiczone_emits_nothing :
    defineTypeF ⟨[("page", pageWithZone)], [("comp.a", sampleComponent)]⟩ 5
        pageWithZone [] =
      some (some ⟨getTypeName pageWithZone, some ["Node"], []⟩,
        [(getTypeName pageWithZone,
          some ⟨getTypeName pageWithZone, some ["Node"], []⟩)]) := by
  simp [defineTypeF, mapEntityTypeToTypeF, mapAttributeToTypeF, pageWithZone,
    hasKey, alookup, setKey]

/-- The `blocks.hero` component, present in the component table. -/
def heroComponent : EntityType :=
  ⟨"blocks.hero", "hero",
    ⟨"collectionType", "component", [("title", ⟨"string", false, false, "", "", []⟩)]⟩⟩

/-- A registry whose component table resolves `blocks.hero` but
whose content-type table does not (the normal situation: components
are keyed by uid in `componentTypeMap` only). -/
def heroRegistry : Registry :=
  ⟨[], [("blocks.hero", heroComponent)]⟩

/-- C3 (code bug).  `mapComponentToType` looks the component key
up in `this.contentTypeMap` instead of `this.componentTypeMap` (its
mapper twin `mapComponent` uses `componentTypeMap`).  Hence even
though the target resolves in the component table of the registry, the
generator finds nothing, drops the field with a warning and never
defines the declaration of the target — against the claim (and spec), which
says a resolvable component is recursively defined and referenced by
name. -/
theorem mapComponentToType_drops_resolvable_component :
    alookup heroRegistry.componentTypeMap "blocks.hero" = some heroComponent ∧
    mapComponentToTypeF heroRegistry 5
        ⟨"component", false, false, "blocks.hero", "", []⟩ "hero" [] =
      some (none, []) := by
  constructor
  · rfl
  · simp [mapComponentToTypeF, heroRegistry, alookup]

/-! ## C6: memoized `defineType` — cycle safety, termination, uniqueness -/

/-- The keys (type names) of the `graphqlTypes` map. -/
def keysOf (s : GState) : List String := s.map Prod.fst

@[simp] theorem keysOf_nil : keysOf [] = [] := rfl

@[simp] theorem keysOf_cons (k : String) (v : Option TypeDecl) (t : GState) :
    keysOf ((k, v) :: t) = k :: keysOf t := rfl

/-- All content types of the registry (the values of
`contentTypeMap`, the only table `defineType` recursion draws targets
from). -/
def ctypes (reg : Registry) : List EntityType := reg.contentTypeMap.map Prod.snd

/-- The type names the generator can ever reserve. -/
def univNames (reg : Registry) : List String := (ctypes reg).map getTypeName

/-- The registry type names not yet present in the state — the
quantity that shrinks at every fresh reservation. -/
def missingNames (reg : Registry) (s : GState) : List String :=
  (univNames reg).filter (fun n => ! hasKey s n)

/-- The largest attribute count over the content types of the registry. -/
def maxAttrs (reg : Registry) : Nat :=
  (ctypes reg).foldr (fun t m => max t.schema.attributes.length m) 0

/-- Fuel sufficient for `defineTypeF` from state `s` (the termination
bound of claim C6). -/
def fuelBound (reg : Registry) (s : GState) : Nat :=
  (missingNames reg s).length * (maxAttrs reg + 4) + 1

theorem hasKey_iff_mem : ∀ (s : GState) (k : String),
    hasKey s k = true ↔ k ∈ keysOf s := by
  intro s k
  induction s with
  | nil => simp [hasKey, alookup, keysOf]
  | cons hd tl ih =>
    rcases hd with ⟨k1, v1⟩
    by_cases h : k1 = k
    · subst h
      simp [hasKey, alookup, keysOf]
    · have h2 : ¬ k = k1 := fun hh => h hh.symm
      simp only [hasKey, alookup, keysOf, List.map_cons, List.mem_cons, if_neg h]
      rw [← keysOf, ← hasKey, ih]
      simp [h2]

theorem alookup_setKey_self : ∀ (s : GState) (k : String) (v : Option TypeDecl),
    alookup (setKey s k v) k = some v := by
  intro s k v
  induction s with
  | nil => simp [setKey, alookup]
  | cons hd tl ih =>
    rcases hd with ⟨k1, v1⟩
    by_cases h : k1 = k
    · simp [setKey, h, alookup]
    · simp [setKey, h, alookup, ih]

theorem hasKey_setKey_self (s : GState) (k : String) (v : Option TypeDecl) :
    hasKey (setKey s k v) k = true := by
  simp [hasKey, alookup_setKey_self]

theorem keysOf_setKey_of_hasKey :
    ∀ (s : GState) (k : String) (v : Option TypeDecl),
      hasKey s k = true → keysOf (setKey s k v) = keysOf s := by
  intro s k v
  induction s with
  | nil => intro h; simp [hasKey, alookup] at h
  | cons hd tl ih =>
    rcases hd with ⟨k1, v1⟩
    intro h
    by_cases hk : k1 = k
    · subst hk
      simp [setKey, keysOf]
    · simp only [hasKey, alookup, if_neg hk] at h
      simp only [setKey, if_neg hk, keysOf_cons]
      rw [ih h]

theorem keysOf_setKey_of_not_hasKey :
    ∀ (s : GState) (k : String) (v : Option TypeDecl),
      hasKey s k = false → keysOf (setKey s k v) = keysOf s ++ [k] := by
  intro s k v
  induction s with
  | nil => intro _; simp [setKey, keysOf]
  | cons hd tl ih =>
    rcases hd with ⟨k1, v1⟩
    intro h
    by_cases hk : k1 = k
    · subst hk
      simp [hasKey, alookup] at h
    · simp only [hasKey, alookup, if_neg hk] at h
      simp only [setKey, if_neg hk, keysOf_cons, List.cons_append]
      rw [ih h]

theorem subset_keysOf_setKey (s : GState) (k : String) (v : Option TypeDecl) :
    keysOf s ⊆ keysOf (setKey s k v) := by
  cases h : hasKey s k
  · rw [keysOf_setKey_of_not_hasKey s k v h]
    exact List.subset_append_left _ _
  · rw [keysOf_setKey_of_hasKey s k v h]
    exact fun a ha => ha

theorem nodup_keysOf_setKey (s : GState) (k : String) (v : Option TypeDecl)
    (h : (keysOf s).Nodup) : (keysOf (setKey s k v)).Nodup := by
  cases hk : hasKey s k
  · rw [keysOf_setKey_of_not_hasKey s k v hk]
    refine List.Nodup.append h (List.nodup_singleton k) ?_
    intro a ha hb
    rw [List.mem_singleton] at hb
    subst hb
    rw [← hasKey_iff_mem] at ha
    rw [ha] at hk
    cases hk
  · rw [keysOf_setKey_of_hasKey s k v hk]
    exact h

theorem hasKey_of_subset {s t : GState} (h : keysOf s ⊆ keysOf t) (k : String)
    (hk : hasKey s k = true) : hasKey t k = true := by
  rw [hasKey_iff_mem] at hk ⊢
  exact h hk

theorem filter_length_mono (l : List String) (p q : String → Bool)
    (h : ∀ a, q a = true → p a = true) :
    (l.filter q).length ≤ (l.filter p).length := by
  induction l with
  | nil => simp
  | cons a t ih =>
    by_cases hq : q a = true
    · simp [List.filter_cons, hq, h a hq]
      omega
    · simp only [Bool.not_eq_true] at hq
      cases hp : p a <;> simp [List.filter_cons, hq, hp] <;> omega

theorem filter_length_strict (l : List String) (p q : String → Bool)
    (h : ∀ a, q a = true → p a = true) :
    ∀ n, n ∈ l → p n = true → q n = false →
      (l.filter q).length < (l.filter p).length := by
  induction l with
  | nil => intro n hn; cases hn
  | cons a t ih =>
    intro n hn hp hq
    rcases List.mem_cons.mp hn with rfl | hn2
    · have hle := filter_length_mono t p q h
      simp [List.filter_cons, hp, hq]
      omega
    · have hlt := ih n hn2 hp hq
      by_cases hqa : q a = true
      · simp [List.filter_cons, hqa, h a hqa]
        omega
      · simp only [Bool.not_eq_true] at hqa
        cases hpa : p a <;> simp [List.filter_cons, hqa, hpa] <;> omega

theorem missing_le_of_subset (reg : Registry) {s t : GState}
    (h : keysOf s ⊆ keysOf t) :
    (missingNames reg t).length ≤ (missingNames reg s).length := by
  refine filter_length_mono (univNames reg) _ _ ?_
  intro a ha
  simp only [Bool.not_eq_true'] at ha ⊢
  cases hs : hasKey s a
  · rfl
  · rw [hasKey_of_subset h a hs] at ha
    cases ha

theorem missing_setKey_lt (reg : Registry) (s : GState) (n : String)
    (v : Option TypeDecl) (hu : n ∈ univNames reg) (hn : hasKey s n = false) :
    (missingNames reg (setKey s n v)).length < (missingNames reg s).length := by
  refine filter_length_strict (univNames reg) _ _ ?_ n hu ?_ ?_
  · intro a ha
    simp only [Bool.not_eq_true'] at ha ⊢
    cases hs : hasKey s a
    · rfl
    · rw [hasKey_of_subset (subset_keysOf_setKey s n v) a hs] at ha
      cases ha
  · simp [hn]
  · simp [hasKey_setKey_self]

theorem alookup_mem_values {β : Type} :
    ∀ (l : List (String × β)) (k : String) (v : β),
      alookup l k = some v → v ∈ l.map Prod.snd := by
  intro l
  induction l with
  | nil => intro k v h; simp [alookup] at h
  | cons hd tl ih =>
    intro k v h
    rcases hd with ⟨k1, v1⟩
    by_cases hk : k1 = k
    · simp only [alookup, if_pos hk, Option.some.injEq] at h
      subst h
      simp
    · simp only [alookup, if_neg hk] at h
      simp [ih k v h]

theorem le_foldr_max :
    ∀ (l : List EntityType) (ct : EntityType), ct ∈ l →
      ct.schema.attributes.length ≤
        l.foldr (fun t m => max t.schema.attributes.length m) 0 := by
  intro l
  induction l with
  | nil => intro ct h; cases h
  | cons a t ih =>
    intro ct h
    rcases List.mem_cons.mp h with rfl | h2
    · simp only [List.foldr_cons]
      exact Nat.le_max_left _ _
    · simp only [List.foldr_cons]
      exact Nat.le_trans (ih ct h2) (Nat.le_max_right _ _)

theorem attrs_le_maxAttrs (reg : Registry) (ct : EntityType)
    (h : ct ∈ ctypes reg) : ct.schema.attributes.length ≤ maxAttrs reg :=
  le_foldr_max (ctypes reg) ct h

/-- State evolution of the generator: every function only ever adds
keys to `graphqlTypes` (via `setKey`), so key sets grow and
distinctness of keys is preserved. -/
theorem typegen_mono (reg : Registry) : ∀ f : Nat,
    (∀ ct s r s2, defineTypeF reg f ct s = some (r, s2) →
      keysOf s ⊆ keysOf s2 ∧ ((keysOf s).Nodup → (keysOf s2).Nodup)) ∧
    (∀ attrs s r s2, mapEntityTypeToTypeF reg f attrs s = some (r, s2) →
      keysOf s ⊆ keysOf s2 ∧ ((keysOf s).Nodup → (keysOf s2).Nodup)) ∧
    (∀ attr key s r s2, mapAttributeToTypeF reg f attr key s = some (r, s2) →
      keysOf s ⊆ keysOf s2 ∧ ((keysOf s).Nodup → (keysOf s2).Nodup)) ∧
    (∀ attr key s r s2, mapRelationToTypeF reg f attr key s = some (r, s2) →
      keysOf s ⊆ keysOf s2 ∧ ((keysOf s).Nodup → (keysOf s2).Nodup)) ∧
    (∀ attr key s r s2, mapComponentToTypeF reg f attr key s = some (r, s2) →
      keysOf s ⊆ keysOf s2 ∧ ((keysOf s).Nodup → (keysOf s2).Nodup)) := by
  intro f
  induction f with
  | zero =>
    refine ⟨?_, ?_, ?_, ?_, ?_⟩
    · intro ct s r s2 h; simp [defineTypeF] at h
    · intro attrs s r s2 h; simp [mapEntityTypeToTypeF] at h
    · intro attr key s r s2 h; simp [mapAttributeToTypeF] at h
    · intro attr key s r s2 h; simp [mapRelationToTypeF] at h
    · intro attr key s r s2 h; simp [mapComponentToTypeF] at h
  | succ f ih =>
    obtain ⟨ihD, ihE, ihA, ihR, ihC⟩ := ih
    refine ⟨?_, ?_, ?_, ?_, ?_⟩
    · -- defineTypeF
      intro ct s r s2 h
      simp only [defineTypeF] at h
      by_cases hk : hasKey s (getTypeName ct) = true
      · rw [if_pos hk] at h
        simp only [Option.some.injEq, Prod.mk.injEq] at h
        obtain ⟨-, rfl⟩ := h
        exact ⟨fun a ha => ha, fun hn => hn⟩
      · rw [if_neg hk] at h
        rcases hm : mapEntityTypeToTypeF reg f ct.schema.attributes
            (setKey s (getTypeName ct) none) with _ | ⟨fields, s3⟩
        · rw [hm] at h
          cases h
        · rw [hm] at h
          simp only [Option.some.injEq, Prod.mk.injEq] at h
          obtain ⟨-, rfl⟩ := h
          obtain ⟨hsub, hnd⟩ := ihE _ _ _ _ hm
          constructor
          · intro a ha
            exact subset_keysOf_setKey s3 _ _
              (hsub (subset_keysOf_setKey s (getTypeName ct) none ha))
          · intro hn
            exact nodup_keysOf_setKey _ _ _
              (hnd (nodup_keysOf_setKey _ _ _ hn))
    · -- mapEntityTypeToTypeF
      intro attrs s r s2 h
      match attrs with
      | [] =>
        simp only [mapEntityTypeToTypeF, Option.some.injEq, Prod.mk.injEq] at h
        obtain ⟨-, rfl⟩ := h
        exact ⟨fun a ha => ha, fun hn => hn⟩
      | (key, attr) :: rest =>
        simp only [mapEntityTypeToTypeF] at h
        rcases ha : mapAttributeToTypeF reg f attr key s with _ | ⟨fo, s1⟩
        · rw [ha] at h; cases h
        · rw [ha] at h
          dsimp only at h
          rcases hr : mapEntityTypeToTypeF reg f rest s1 with _ | ⟨fields, s3⟩
          · rw [hr] at h; cases h
          · rw [hr] at h
            simp only [Option.some.injEq, Prod.mk.injEq] at h
            obtain ⟨-, rfl⟩ := h
            obtain ⟨hsub1, hnd1⟩ := ihA _ _ _ _ _ ha
            obtain ⟨hsub2, hnd2⟩ := ihE _ _ _ _ hr
            exact ⟨fun a haa => hsub2 (hsub1 haa), fun hn => hnd2 (hnd1 hn)⟩
    · -- mapAttributeToTypeF
      intro attr key s r s2 h
      simp only [mapAttributeToTypeF] at h
      split at h
      all_goals
        first
          | (simp only [Option.some.injEq, Prod.mk.injEq] at h
             obtain ⟨-, rfl⟩ := h
             exact ⟨fun a ha => ha, fun hn => hn⟩)
          | exact ihR _ _ _ _ _ h
          | exact ihC _ _ _ _ _ h
    · -- mapRelationToTypeF
      intro attr key s r s2 h
      simp only [mapRelationToTypeF] at h
      rcases hl : alookup reg.contentTypeMap attr.model with _ | t
      · rw [hl] at h
        simp only [Option.some.injEq, Prod.mk.injEq] at h
        obtain ⟨-, rfl⟩ := h
        exact ⟨fun a ha => ha, fun hn => hn⟩
      · rw [hl] at h
        dsimp only at h
        rcases hd : defineTypeF reg f t s with _ | ⟨r1, s1⟩
        · rw [hd] at h; cases h
        · rw [hd] at h
          simp only [Option.some.injEq, Prod.mk.injEq] at h
          obtain ⟨-, rfl⟩ := h
          exact ihD _ _ _ _ hd
    · -- mapComponentToTypeF
      intro attr key s r s2 h
      simp only [mapComponentToTypeF] at h
      rcases hl : alookup reg.contentTypeMap attr.component with _ | t
      · rw [hl] at h
        simp only [Option.some.injEq, Prod.mk.injEq] at h
        obtain ⟨-, rfl⟩ := h
        exact ⟨fun a ha => ha, fun hn => hn⟩
      · rw [hl] at h
        dsimp only at h
        rcases hd : defineTypeF reg f t s with _ | ⟨r1, s1⟩
        · rw [hd] at h; cases h
        · rw [hd] at h
          simp only [Option.some.injEq, Prod.mk.injEq] at h
          obtain ⟨-, rfl⟩ := h
          exact ihD _ _ _ _ hd

theorem lin_drop {x f c1 c2 : Nat} (hf : x + c1 ≤ f + 1) (h : c2 + 1 ≤ c1) :
    x + c2 ≤ f := by omega

theorem lin_tail {x y r f : Nat} (h1 : x ≤ y) (hf : y + (r + 1) + 3 ≤ f + 1) :
    x + r + 3 ≤ f := by omega

theorem lin_reserve {x y a attrs f : Nat} (h1 : x + (a + 4) ≤ y)
    (hf : y + 1 ≤ f + 1) (hattr : attrs ≤ a) : x + attrs + 3 ≤ f := by omega

/-- Totality of the generator under the `fuelBound` budget: every
reservation of a fresh name strictly shrinks the set of registry names
missing from the state, so `missing · (maxAttrs + 4) + 1` fuel always
suffices; moreover `defineType` always leaves its own name defined in
the resulting state. -/
theorem typegen_total (reg : Registry) : ∀ f : Nat,
    (∀ ct s, ct ∈ ctypes reg →
      (missingNames reg s).length * (maxAttrs reg + 4) + 1 ≤ f →
      ∃ r s2, defineTypeF reg f ct s = some (r, s2) ∧
        hasKey s2 (getTypeName ct) = true) ∧
    (∀ attrs s,
      (missingNames reg s).length * (maxAttrs reg + 4) + attrs.length + 3 ≤ f →
      ∃ r s2, mapEntityTypeToTypeF reg f attrs s = some (r, s2)) ∧
    (∀ attr key s,
      (missingNames reg s).length * (maxAttrs reg + 4) + 3 ≤ f →
      ∃ r s2, mapAttributeToTypeF reg f attr key s = some (r, s2)) ∧
    (∀ attr key s,
      (missingNames reg s).length * (maxAttrs reg + 4) + 2 ≤ f →
      ∃ r s2, mapRelationToTypeF reg f attr key s = some (r, s2)) ∧
    (∀ attr key s,
      (missingNames reg s).length * (maxAttrs reg + 4) + 2 ≤ f →
      ∃ r s2, mapComponentToTypeF reg f attr key s = some (r, s2)) := by
  intro f
  induction f with
  | zero =>
    refine ⟨?_, ?_, ?_, ?_, ?_⟩
    · intro ct s _ hf; omega
    · intro attrs s hf; omega
    · intro attr key s hf; omega
    · intro attr key s hf; omega
    · intro attr key s hf; omega
  | succ f ih =>
    obtain ⟨ihD, ihE, ihA, ihR, ihC⟩ := ih
    refine ⟨?_, ?_, ?_, ?_, ?_⟩
    · -- defineTypeF
      intro ct s hct hf
      cases hk : hasKey s (getTypeName ct)
      · -- fresh name: reserve it, build fields, store the declaration
        have hmem : getTypeName ct ∈ univNames reg :=
          List.mem_map_of_mem getTypeName hct
        have hlt : (missingNames reg (setKey s (getTypeName ct) none)).length + 1 ≤
            (missingNames reg s).length :=
          missing_setKey_lt reg s (getTypeName ct) none hmem hk
        have hattr : ct.schema.attributes.length ≤ maxAttrs reg :=
          attrs_le_maxAttrs reg ct hct
        have hmul : (missingNames reg (setKey s (getTypeName ct) none)).length *
              (maxAttrs reg + 4) + (maxAttrs reg + 4) ≤
            (missingNames reg s).length * (maxAttrs reg + 4) := by
          have h1 := Nat.mul_le_mul_right (maxAttrs reg + 4) hlt
          calc (missingNames reg (setKey s (getTypeName ct) none)).length *
                  (maxAttrs reg + 4) + (maxAttrs reg + 4)
              = ((missingNames reg (setKey s (getTypeName ct) none)).length + 1) *
                  (maxAttrs reg + 4) := by ring
            _ ≤ (missingNames reg s).length * (maxAttrs reg + 4) := h1
        have harith := lin_reserve hmul hf hattr
        obtain ⟨fields, s2, hE⟩ := ihE ct.schema.attributes
          (setKey s (getTypeName ct) none) harith
        refine ⟨some ⟨getTypeName ct,
            if ct.schema.modelType = "contentType" then some ["Node"] else none,
            fields⟩,
          setKey s2 (getTypeName ct)
            (some ⟨getTypeName ct,
              if ct.schema.modelType = "contentType" then some ["Node"] else none,
              fields⟩), ?_, hasKey_setKey_self _ _ _⟩
        simp only [defineTypeF, hk, Bool.false_eq_true, if_false, hE]
      · -- memoized: return immediately
        exact ⟨(alookup s (getTypeName ct)).join, s,
          by simp only [defineTypeF, hk, if_true], hk⟩
    · -- mapEntityTypeToTypeF
      intro attrs s hf
      match attrs with
      | [] => exact ⟨[], s, by simp only [mapEntityTypeToTypeF]⟩
      | (key, attr) :: rest =>
        simp only [List.length_cons] at hf
        have hfA : (missingNames reg s).length * (maxAttrs reg + 4) + 3 ≤ f := by
          have := lin_tail (Nat.le_refl
            ((missingNames reg s).length * (maxAttrs reg + 4))) hf
          omega
        obtain ⟨fo, s1, hA⟩ := ihA attr key s hfA
        have hsub : keysOf s ⊆ keysOf s1 :=
          ((typegen_mono reg f).2.2.1 _ _ _ _ _ hA).1
        have hm : (missingNames reg s1).length ≤ (missingNames reg s).length :=
          missing_le_of_subset reg hsub
        have hfE : (missingNames reg s1).length * (maxAttrs reg + 4) +
            rest.length + 3 ≤ f :=
          lin_tail (Nat.mul_le_mul_right (maxAttrs reg + 4) hm) hf
        obtain ⟨fields, s3, hE⟩ := ihE rest s1 hfE
        refine ⟨(match fo with
          | some fl => (key, fl) :: fields
          | none => fields), s3, ?_⟩
        simp only [mapEntityTypeToTypeF, hA, hE]
        cases fo <;> rfl
    · -- mapAttributeToTypeF
      intro attr key s hf
      have hf2 : (missingNames reg s).length * (maxAttrs reg + 4) + 2 ≤ f :=
        lin_drop hf (by omega)
      simp only [mapAttributeToTypeF]
      split
      · exact ⟨some ("String" ++ if attr.required then "!" else ""), s, rfl⟩
      · exact ⟨some ("String" ++ if attr.required then "!" else ""), s, rfl⟩
      · exact ⟨some ("StrapiMarkdownString" ++ if attr.required then "!" else ""), s, rfl⟩
      · exact ⟨some ("Date" ++ if attr.required then "!" else ""), s, rfl⟩
      · exact ⟨some ("Date" ++ if attr.required then "!" else ""), s, rfl⟩
      · exact ⟨some ("Int" ++ if attr.required then "!" else ""), s, rfl⟩
      · exact ⟨some ("File" ++ if attr.required then "!" else ""), s, rfl⟩
      · exact ihR attr key s hf2
      · exact ihC attr key s hf2
      · exact ⟨none, s, rfl⟩
    · -- mapRelationToTypeF
      intro attr key s hf
      have hf1 : (missingNames reg s).length * (maxAttrs reg + 4) + 1 ≤ f :=
        lin_drop hf (by omega)
      rcases hl : alookup reg.contentTypeMap attr.model with _ | t
      · exact ⟨none, s, by simp only [mapRelationToTypeF, hl]⟩
      · have hmem : t ∈ ctypes reg := alookup_mem_values _ _ _ hl
        obtain ⟨r1, s2, hd, -⟩ := ihD t s hmem hf1
        exact ⟨some (getTypeName t), s2,
          by simp only [mapRelationToTypeF, hl, hd]⟩
    · -- mapComponentToTypeF
      intro attr key s hf
      have hf1 : (missingNames reg s).length * (maxAttrs reg + 4) + 1 ≤ f :=
        lin_drop hf (by omega)
      rcases hl : alookup reg.contentTypeMap attr.component with _ | t
      · exact ⟨none, s, by simp only [mapComponentToTypeF, hl]⟩
      · have hmem : t ∈ ctypes reg := alookup_mem_values _ _ _ hl
        obtain ⟨r1, s2, hd, -⟩ := ihD t s hmem hf1
        exact ⟨some (getTypeName t), s2,
          by simp only [mapComponentToTypeF, hl, hd]⟩

/-- C6 (confirmed).  `defineType` is cycle-safe and terminating:
(1) re-entrancy — if the name of the type is already present in
`graphqlTypes` (even as the in-flight `undefined` placeholder reserved
before its fields are computed), `defineType` returns immediately with
that in-flight entry and the state unchanged, instead of recursing;
(2) termination and uniqueness — for any registry (in particular one
where two content types reference each other), any content type and
any state, fuel `fuelBound` (each fresh reservation strictly shrinks
the set of registry names missing from the map) suffices for
`defineType` to return; its own name is then a key of the final map,
keys are never removed, and distinctness of keys is preserved — so
starting from the empty map the final declaration map holds exactly
one entry per distinct type name. -/
theorem defineType_terminates_unique (reg : Registry) (ct : EntityType)
    (s : GState) (fuel : Nat) :
    (hasKey s (getTypeName ct) = true →
      defineTypeF reg (fuel+1) ct s =
        some ((alookup s (getTypeName ct)).join, s)) ∧
    (ct ∈ ctypes reg → fuelBound reg s ≤ fuel →
      ∃ r s2, defineTypeF reg fuel ct s = some (r, s2) ∧
        hasKey s2 (getTypeName ct) = true ∧
        keysOf s ⊆ keysOf s2 ∧
        ((keysOf s).Nodup → (keysOf s2).Nodup)) := by
  constructor
  · intro hk
    simp only [defineTypeF, hk, if_true]
  · intro hct hf
    obtain ⟨r, s2, hd, hkk⟩ := (typegen_total reg fuel).1 ct s hct hf
    obtain ⟨hsub, hnd⟩ := (typegen_mono reg fuel).1 ct s r s2 hd
    exact ⟨r, s2, hd, hkk, hsub, hnd⟩

/-- Content type `alpha`, holding a relation to `beta`. -/
def alphaType : EntityType :=
  ⟨"api::alpha", "alpha",
    ⟨"collectionType", "contentType",
      [("beta_ref", ⟨"relation", false, false, "", "beta", []⟩)]⟩⟩

/-- Content type `beta`, holding a relation back to `alpha`. -/
def betaType : EntityType :=
  ⟨"api::beta", "beta",
    ⟨"collectionType", "contentType",
      [("alpha_ref", ⟨"relation", false, false, "", "alpha", []⟩)]⟩⟩

/-- A registry with two mutually-referential content types. -/
def cyclicRegistry : Registry :=
  ⟨[("alpha", alphaType), ("beta", betaType)], []⟩

/-- Witness for C6 on the mutually-referential registry, starting from
the empty declaration map. -/
theorem defineType_terminates_unique_witness :
    alphaType ∈ ctypes cyclicRegistry ∧
    fuelBound cyclicRegistry [] ≤ 11 ∧
    (∃ r s2, defineTypeF cyclicRegistry 11 alphaType [] = some (r, s2) ∧
      hasKey s2 (getTypeName alphaType) = true ∧
      keysOf ([] : GState) ⊆ keysOf s2 ∧
      ((keysOf ([] : GState)).Nodup → (keysOf s2).Nodup)) :=
  ⟨by decide, by decide,
    (defineType_terminates_unique cyclicRegistry alphaType [] 11).2
      (by decide) (by decide)⟩

end StrapiSource
